import Mathlib

/-!
Shallow embedding of the co2meter exporter's frame codec and polling loop,
with theorems settling the specification claims. Bytes are modelled as
natural numbers reduced modulo 256 wherever the Go byte type truncates.
-/

namespace Co2Meter

/-- An 8-byte frame, indexed by position. -/
abbrev Frame := Fin 8 → Nat

/-- Constant cstate of decryptReading: the ASCII bytes of the string Htemp99e. -/
def cstate : Frame := ![0x48, 0x74, 0x65, 0x6D, 0x70, 0x39, 0x39, 0x65]

/-- Constant shuffle of decryptReading: the byte permutation table. -/
def shuffle : Fin 8 → Fin 8 := ![2, 4, 0, 7, 1, 6, 5, 3]

/-- Stage 1 of decryptReading: the Go loop writes buffer i to position shuffle i
of a zero-initialised buffer. -/
def phase1 (buffer : Frame) : Frame :=
  (List.finRange 8).foldl (fun acc i => Function.update acc (shuffle i) (buffer i % 256))
    (fun _ => 0)

/-- Stage 2 of decryptReading: position-wise XOR with the session key. -/
def phase2 (buffer key : Frame) : Frame :=
  fun i => phase1 buffer i ^^^ (key i % 256)

/-- Stage 3 of decryptReading: combined shift and carry. Go shifts bytes, so the
left shift is truncated modulo 256 before the bitwise or; the index i - 1 wraps
modulo 8 exactly as the Go expression (i-1+8) mod 8 does. -/
def phase3 (buffer key : Frame) : Frame :=
  fun i => ((phase2 buffer key i >>> 3) ||| ((phase2 buffer key (i - 1) <<< 5) % 256)) % 256

/-- The ctmp loop of decryptReading: per-byte nibble swap of cstate. -/
def ctmp : Frame :=
  fun i => ((cstate i >>> 4) ||| ((cstate i <<< 4) % 256)) % 256

/-- decryptReading from the source: the four-stage descrambling transform. -/
def decryptReading (buffer key : Frame) : Frame :=
  fun i => (0x100 + phase3 buffer key i - ctmp i) % 256

/-- isValidReading from the source: terminator byte 0x0D at index 4 and a
checksum of bytes 0..2 (byte-wrapped sum) at index 3. -/
def isValidReading (buffer : Frame) : Bool :=
  if buffer 4 ≠ 0x0D ∨ (buffer 0 + buffer 1 + buffer 2) % 256 ≠ buffer 3 then false else true

theorem shuffle_shuffle : ∀ j : Fin 8, shuffle (shuffle j) = j := by decide

theorem phase1_apply (b : Frame) (j : Fin 8) : phase1 b j = b (shuffle j) % 256 := by
  fin_cases j <;> rfl

theorem phase1_lt (b : Frame) (j : Fin 8) : phase1 b j < 256 := by
  rw [phase1_apply]; omega

theorem phase2_lt (b k : Frame) (j : Fin 8) : phase2 b k j < 256 := by
  have h1 : phase1 b j < 2 ^ 8 := phase1_lt b j
  have h2 : k j % 256 < 2 ^ 8 := by omega
  exact Nat.xor_lt_two_pow h1 h2

theorem ctmp_lt (i : Fin 8) : ctmp i < 256 := by
  fin_cases i <;> decide

/-- Disjoint bitwise or is addition: the low five bits and a multiple of 32
never overlap. -/
theorem lor_mul32 (x y : Nat) (hx : x < 32) : x ||| y * 32 = y * 32 + x := by
  have h32 : y * 32 = 2 ^ 5 * y := by ring
  have hx' : x < 2 ^ 5 := hx
  rw [h32, Nat.lor_comm, ← Nat.mul_add_lt_is_or hx' y]

/-- Right rotation by three bits of the 64-bit concatenation of the eight
bytes, expressed per byte exactly as stage 3 of decryptReading writes it. -/
def rotR3 (A : Frame) : Frame :=
  fun i => ((A i >>> 3) ||| ((A (i - 1) <<< 5) % 256)) % 256

/-- Left rotation by three bits of the 64-bit concatenation of the eight
bytes, per byte: the low five bits move up and the top three bits of the next
byte come in at the bottom. -/
def rotL3 (A : Frame) : Frame :=
  fun i => (A i % 32) * 8 + A (i + 1) / 32

theorem phase3_eq_rotR3 (b k : Frame) : phase3 b k = rotR3 (phase2 b k) := rfl

theorem fin8_sub_add (i : Fin 8) : i - 1 + 1 = i := by revert i; decide

theorem fin8_add_sub (i : Fin 8) : i + 1 - 1 = i := by revert i; decide

theorem rotR3_arith (A : Frame) (hA : ∀ j, A j < 256) (i : Fin 8) :
    rotR3 A i = (A (i - 1) % 8) * 32 + A i / 8 := by
  have h1 : A i < 256 := hA i
  have h2 : A (i - 1) < 256 := hA (i - 1)
  have hr : A i >>> 3 = A i / 8 := by
    rw [Nat.shiftRight_eq_div_pow]
  have hl : A (i - 1) <<< 5 = A (i - 1) * 32 := by
    rw [Nat.shiftLeft_eq]
  rw [rotR3, hr, hl]
  have hm : A (i - 1) * 32 % 256 = A (i - 1) % 8 * 32 := by omega
  rw [hm, lor_mul32 _ _ (by omega)]
  omega

theorem rotR3_rotL3 (A : Frame) (hA : ∀ j, A j < 256) (i : Fin 8) :
    rotR3 (rotL3 A) i = A i := by
  have hL : ∀ j, rotL3 A j < 256 := by
    intro j
    have := hA j
    have := hA (j + 1)
    simp only [rotL3]
    omega
  rw [rotR3_arith (rotL3 A) hL]
  simp only [rotL3, fin8_sub_add]
  have h1 : A i < 256 := hA i
  have h2 : A (i - 1) < 256 := hA (i - 1)
  have h3 : A (i + 1) < 256 := hA (i + 1)
  omega

theorem rotL3_rotR3 (A : Frame) (hA : ∀ j, A j < 256) (i : Fin 8) :
    rotL3 (rotR3 A) i = A i := by
  rw [rotL3, rotR3_arith A hA, rotR3_arith A hA, fin8_add_sub]
  have h1 : A i < 256 := hA i
  have h2 : A (i - 1) < 256 := hA (i - 1)
  have h3 : A (i + 1) < 256 := hA (i + 1)
  omega

/-- Modelled from the spec: the device-side obfuscation is the inverse of
decryptReading and is not present in the source; following the round-trip
property of the spec it adds the nibble-swapped constant, left-rotates the
64-bit concatenation by three bits, XORs with the key, and applies the inverse
of the byte permutation (which is an involution, so the same table serves).
Stage one: constant addition, modulo 256. -/
def encodeStage1 (F : Frame) : Frame :=
  fun i => (F i % 256 + ctmp i) % 256

/-- Modelled from the spec: stage two of the obfuscation, the left rotation. -/
def encodeStage2 (F : Frame) : Frame :=
  rotL3 (encodeStage1 F)

/-- Modelled from the spec: stage three of the obfuscation, the key XOR. -/
def encodeStage3 (F key : Frame) : Frame :=
  fun i => encodeStage2 F i ^^^ (key i % 256)

/-- Modelled from the spec: the full device-side obfuscation of a plaintext
frame under a session key. -/
def encodeReading (F key : Frame) : Frame :=
  fun i => encodeStage3 F key (shuffle i)

theorem encodeStage1_lt (F : Frame) (i : Fin 8) : encodeStage1 F i < 256 := by
  simp only [encodeStage1]; omega

theorem encodeStage2_lt (F : Frame) (i : Fin 8) : encodeStage2 F i < 256 := by
  simp only [encodeStage2, rotL3]
  have h1 := encodeStage1_lt F i
  have h2 := encodeStage1_lt F (i + 1)
  omega

theorem encodeStage3_lt (F key : Frame) (i : Fin 8) : encodeStage3 F key i < 256 := by
  have h1 : encodeStage2 F i < 2 ^ 8 := encodeStage2_lt F i
  have h2 : key i % 256 < 2 ^ 8 := by omega
  exact Nat.xor_lt_two_pow h1 h2

theorem decrypt_encode_aux (F key : Frame) (hF : ∀ i, F i < 256) :
    decryptReading (encodeReading F key) key = F := by
  funext i
  have hp1 : ∀ j, phase1 (encodeReading F key) j = encodeStage3 F key j := by
    intro j
    rw [phase1_apply]
    simp only [encodeReading, shuffle_shuffle]
    exact Nat.mod_eq_of_lt (encodeStage3_lt F key j)
  have hp2 : phase2 (encodeReading F key) key = encodeStage2 F := by
    funext j
    simp only [phase2, hp1, encodeStage3]
    rw [Nat.xor_cancel_right]
  have hp3 : phase3 (encodeReading F key) key i = encodeStage1 F i := by
    rw [phase3_eq_rotR3, hp2, encodeStage2]
    exact rotR3_rotL3 (encodeStage1 F) (encodeStage1_lt F) i
  rw [decryptReading, hp3, encodeStage1]
  have h1 : F i < 256 := hF i
  have h2 : ctmp i < 256 := ctmp_lt i
  omega

theorem encode_decrypt_aux (r key : Frame) (hr : ∀ i, r i < 256) :
    encodeReading (decryptReading r key) key = r := by
  funext i
  have hp2lt : ∀ j, phase2 r key j < 256 := phase2_lt r key
  have he1 : encodeStage1 (decryptReading r key) = phase3 r key := by
    funext j
    have hd : decryptReading r key j < 256 := by
      simp only [decryptReading]; omega
    simp only [encodeStage1, Nat.mod_eq_of_lt hd, decryptReading]
    have h3 : phase3 r key j < 256 := by
      simp only [phase3]; omega
    have hc : ctmp j < 256 := ctmp_lt j
    omega
  have he2 : encodeStage2 (decryptReading r key) = phase2 r key := by
    funext j
    rw [encodeStage2, he1, phase3_eq_rotR3]
    exact rotL3_rotR3 (phase2 r key) hp2lt j
  simp only [encodeReading, encodeStage3, he2, phase2]
  rw [Nat.xor_cancel_right, phase1_apply, shuffle_shuffle]
  exact Nat.mod_eq_of_lt (hr i)

/-- The byte permutation P of the spec, P = [2,4,0,7,1,6,5,3]. -/
def Pspec : Fin 8 → Fin 8 := ![2, 4, 0, 7, 1, 6, 5, 3]

/-- The inverse of the spec permutation P, so that output position P i receives
input byte i; P is an involution, so the table coincides with P itself (the
accompanying theorem certifies the inverse law). -/
def Pinv : Fin 8 → Fin 8 := ![2, 4, 0, 7, 1, 6, 5, 3]

/-- The spec constant C: the ASCII bytes of Htemp99e. -/
def Cconst : Frame := ![72, 116, 101, 109, 112, 57, 57, 101]

/-- The spec constant after the per-byte nibble swap. -/
def CconstSwapped : Frame := fun i => ((Cconst i >>> 4) ||| (Cconst i <<< 4)) % 256

/-- The four-stage reference transform written from the words of the spec:
de-shuffle, key XOR, rotate-mix, constant subtraction. -/
def decodeSpec (buffer key : Frame) : Frame :=
  let s1 : Frame := fun j => buffer (Pinv j)
  let s2 : Frame := fun j => s1 j ^^^ key j
  let s3 : Frame := fun j => ((s2 j >>> 3) ||| (s2 (j - 1) <<< 5)) % 256
  fun i => (0x100 + s3 i - CconstSwapped i) % 256

theorem shuffle_eq_Pinv : shuffle = Pinv := rfl

theorem lor_shl5_mod (u v : Nat) (hu : u < 256) (_hv : v < 256) :
    ((u >>> 3) ||| ((v <<< 5) % 256)) % 256 = ((u >>> 3) ||| (v <<< 5)) % 256 := by
  have hr : u >>> 3 = u / 8 := by rw [Nat.shiftRight_eq_div_pow]
  have hl : v <<< 5 = v * 32 := by rw [Nat.shiftLeft_eq]
  rw [hr, hl]
  have hm : v * 32 % 256 = v % 8 * 32 := by omega
  rw [hm, lor_mul32 _ _ (by omega), lor_mul32 _ _ (by omega)]
  omega

theorem ctmp_eq_CconstSwapped (i : Fin 8) : ctmp i = CconstSwapped i := by
  fin_cases i <;> rfl

/-- C1: for every 8-byte raw frame and every 8-byte session key, decryptReading
is the pure four-stage reference transform of the spec: the byte permutation
where output position P i receives input byte i, the position-wise key XOR, the
shift-and-carry mix, and the modular subtraction of the nibble-swapped constant
derived from the ASCII bytes of Htemp99e; moreover Pinv is indeed the inverse
of the spec permutation P. -/
theorem decrypt_matches_spec_transform (buffer key : Frame)
    (hbuf : ∀ i, buffer i < 256) (hkey : ∀ i, key i < 256) :
    decryptReading buffer key = decodeSpec buffer key
      ∧ (∀ i, Pinv (Pspec i) = i) ∧ (∀ i, Pspec (Pinv i) = i) := by
  refine ⟨?_, by decide, by decide⟩
  funext i
  have hs2 : ∀ j, phase2 buffer key j = buffer (Pinv j) ^^^ key j := by
    intro j
    rw [phase2, phase1_apply, shuffle_eq_Pinv, Nat.mod_eq_of_lt (hbuf (Pinv j)),
      Nat.mod_eq_of_lt (hkey j)]
  have hs2lt : ∀ j, buffer (Pinv j) ^^^ key j < 256 := by
    intro j
    exact Nat.xor_lt_two_pow (n := 8) (hbuf (Pinv j)) (hkey j)
  have hs3 : phase3 buffer key i
      = (((buffer (Pinv i) ^^^ key i) >>> 3)
          ||| ((buffer (Pinv (i - 1)) ^^^ key (i - 1)) <<< 5)) % 256 := by
    rw [phase3, hs2, hs2]
    exact lor_shl5_mod _ _ (hs2lt i) (hs2lt (i - 1))
  rw [decryptReading, hs3, ctmp_eq_CconstSwapped, decodeSpec]

/-- C2: round trip; the device-side obfuscation (spec-modelled inverse of the
decoder) followed by decryptReading under the same key reproduces any byte
frame exactly. -/
theorem encode_then_decode_roundtrip (F key : Frame) (hF : ∀ i, F i < 256) :
    decryptReading (encodeReading F key) key = F :=
  decrypt_encode_aux F key hF

/-- C3: the validity gate accepts exactly the frames with terminator 0x0D at
byte 4 and the modulo-256 checksum of bytes 0..2 at byte 3, in both
directions. -/
theorem isValid_iff (b : Frame) :
    isValidReading b = true ↔ (b 4 = 0x0D ∧ (b 0 + b 1 + b 2) % 256 = b 3) := by
  simp only [isValidReading, ne_eq]
  split
  · rename_i h
    simp only [Bool.false_eq_true, false_iff]
    tauto
  · rename_i h
    push_neg at h
    simp only [true_iff]
    exact h

/-- C10: for every fixed key, decryptReading is a bijection on byte frames:
its output stays in byte range, the spec-modelled obfuscation is a two-sided
inverse, and distinct byte frames decode to distinct outputs. -/
theorem decrypt_bijection (key F : Frame) (hF : ∀ i, F i < 256) :
    (∀ i, decryptReading F key i < 256)
      ∧ encodeReading (decryptReading F key) key = F
      ∧ decryptReading (encodeReading F key) key = F
      ∧ ∀ G : Frame, (∀ i, G i < 256) →
          decryptReading F key = decryptReading G key → F = G := by
  refine ⟨?_, encode_decrypt_aux F key hF, decrypt_encode_aux F key hF, ?_⟩
  · intro i
    simp only [decryptReading]
    omega
  · intro G hG h
    have h1 := encode_decrypt_aux F key hF
    have h2 := encode_decrypt_aux G key hG
    rw [← h1, ← h2, h]

/-- The all-zero frame, used as a concrete instance. -/
def zeroFrame : Frame := fun _ => 0

/-- A concrete session key. -/
def sampleKey : Frame := ![1, 2, 3, 4, 5, 6, 7, 8]

/-- A concrete plaintext frame with valid checksum and terminator layout. -/
def samplePlain : Frame := ![0x50, 0x02, 0x0F, 0x61, 0x0D, 0, 0, 0]

/-- A concrete raw frame. -/
def sampleRaw : Frame := ![10, 20, 30, 40, 50, 60, 70, 80]

/-- A second concrete key. -/
def sampleKey2 : Frame := ![9, 9, 9, 9, 9, 9, 9, 9]

theorem decrypt_matches_spec_transform_witness :
    decryptReading sampleRaw sampleKey2 = decodeSpec sampleRaw sampleKey2 :=
  (decrypt_matches_spec_transform sampleRaw sampleKey2 (by decide) (by decide)).1

theorem encode_then_decode_roundtrip_witness :
    decryptReading (encodeReading samplePlain sampleKey) sampleKey = samplePlain :=
  encode_then_decode_roundtrip samplePlain sampleKey (by decide)

theorem decrypt_bijection_witness :
    encodeReading (decryptReading zeroFrame zeroFrame) zeroFrame = zeroFrame :=
  (decrypt_bijection zeroFrame zeroFrame (by decide)).2.1

/-- Shared environment state of the mutex-based implementation; the RWMutex
only serialises field access and is modelled away, leaving the two fields. -/
structure envState where
  co2 : Int
  temperature : Rat
deriving DecidableEq

/-- Getter Co2 of envState. -/
def envState.Co2 (s : envState) : Int := s.co2

/-- Setter setCo2 of envState. -/
def envState.setCo2 (s : envState) (co2 : Int) : envState := { s with co2 := co2 }

/-- Getter Temperature of envState. -/
def envState.Temperature (s : envState) : Rat := s.temperature

/-- Setter setTemperature of envState. -/
def envState.setTemperature (s : envState) (temperature : Rat) : envState :=
  { s with temperature := temperature }

/-- The zero value of envState, as declared by var state envState in main. -/
def initEnvState : envState := { co2 := 0, temperature := 0 }

/-- Rounding half away from zero, the semantics of Go math.Round; float64
arithmetic is modelled as exact rational arithmetic. -/
def mathRound (x : Rat) : Int :=
  if x < 0 then -⌊-x + 1 / 2⌋ else ⌊x + 1 / 2⌋

/-- The temperature conversion applied in the dispatch switch of getReadings:
math.Round of (value / 16 - 273.15) * 100, divided by 100. -/
def celsiusOfRaw (value : Int) : Rat :=
  (mathRound (((value : Rat) / 16 - 27315 / 100) * 100) : Rat) / 100

/-- Big-endian 16-bit read of two bytes, binary.BigEndian.Uint16. -/
def beUint16 (hi lo : Nat) : Int :=
  ((hi % 256) * 256 + lo % 256 : Nat)

/-- The switch statement of getReadings: code 0x50 stores a CO2 reading, code
0x42 stores a converted temperature reading, any other code does nothing. -/
def dispatchReading (s : envState) (code : Nat) (value : Int) : envState :=
  if code = 0x50 then s.setCo2 value
  else if code = 0x42 then s.setTemperature (celsiusOfRaw value)
  else s

/-- One observable event of the polling loop: a completed 8-byte device read,
or a read failure. -/
inductive PollEvent where
  | readError : PollEvent
  | frame : Frame → PollEvent
deriving DecidableEq

/-- How a finite run of the polling loop ends: all supplied events consumed
with the loop still running, the silent break after an invalid decoded frame
(carrying the decoded frame printed in the warning), or the process exit that
log.Fatal performs on a read error. -/
inductive PollOutcome where
  | ranAll : PollOutcome
  | loopStopped : Frame → PollOutcome
  | processExited : PollOutcome
deriving DecidableEq

/-- The body of getReadings, run over a finite list of device events: read,
optionally decode and validate, dispatch on the kind code, repeat. The sleep
between iterations has no observable effect on state and is dropped. -/
def getReadingsRun (key : Frame) (skipDecryption : Bool) (s : envState) :
    List PollEvent → envState × PollOutcome
  | [] => (s, PollOutcome.ranAll)
  | PollEvent.readError :: _ => (s, PollOutcome.processExited)
  | PollEvent.frame f :: rest =>
    if skipDecryption then
      getReadingsRun key skipDecryption
        (dispatchReading s (f 0 % 256) (beUint16 (f 1) (f 2))) rest
    else
      if isValidReading (decryptReading f key) then
        getReadingsRun key skipDecryption
          (dispatchReading s (decryptReading f key 0)
            (beUint16 (decryptReading f key 1) (decryptReading f key 2))) rest
      else (s, PollOutcome.loopStopped (decryptReading f key))

/-- Package-level state of the atomic-based implementation: the stored CO2 and
the stored raw temperature, both atomic Int32 values initialised to zero. -/
structure AtomicState where
  co2 : Int
  raw_temperature : Int
deriving DecidableEq

/-- The zero value of the two package-level atomics. -/
def initAtomicState : AtomicState := { co2 := 0, raw_temperature := 0 }

/-- Getter Co2 of the atomic implementation: float64 of the loaded value. -/
def AtomicState.Co2 (s : AtomicState) : Rat := (s.co2 : Rat)

/-- Getter Temperature of the atomic implementation: the Kelvin conversion is
applied on read to the stored raw value. -/
def AtomicState.Temperature (s : AtomicState) : Rat :=
  (mathRound (((s.raw_temperature : Rat) / 16 - 27315 / 100) * 100) : Rat) / 100

/-- C4: with decryption enabled, a frame whose decode fails validation makes
the loop log the decoded frame and break: the run ends in the loopStopped
outcome with the state of that iteration untouched, no matter what events
would have followed; a device read error instead ends in the processExited
outcome, in any mode. -/
theorem invalid_frame_stops_loop_only (key : Frame) (s : envState) (f : Frame)
    (rest : List PollEvent)
    (h : isValidReading (decryptReading f key) = false) :
    getReadingsRun key false s (PollEvent.frame f :: rest)
        = (s, PollOutcome.loopStopped (decryptReading f key))
      ∧ ∀ (key2 : Frame) (skip : Bool) (s2 : envState) (rest2 : List PollEvent),
          getReadingsRun key2 skip s2 (PollEvent.readError :: rest2)
            = (s2, PollOutcome.processExited) := by
  constructor
  · simp [getReadingsRun, h]
  · intro key2 skip s2 rest2
    rfl

theorem invalid_frame_stops_loop_only_witness :
    getReadingsRun zeroFrame false initEnvState [PollEvent.frame zeroFrame]
        = (initEnvState, PollOutcome.loopStopped (decryptReading zeroFrame zeroFrame))
      ∧ getReadingsRun zeroFrame true initEnvState [PollEvent.readError]
        = (initEnvState, PollOutcome.processExited) :=
  ⟨(invalid_frame_stops_loop_only zeroFrame initEnvState zeroFrame [] (by decide)).1,
   (invalid_frame_stops_loop_only zeroFrame initEnvState zeroFrame [] (by decide)).2
     zeroFrame true initEnvState []⟩

/-- C5: kind dispatch and field independence; code 0x50 writes only the CO2
field, code 0x42 writes only the temperature field, and every other code
leaves the state untouched. -/
theorem kind_dispatch (s : envState) (v : Int) :
    (dispatchReading s 0x50 v).co2 = v
      ∧ (dispatchReading s 0x50 v).temperature = s.temperature
      ∧ (dispatchReading s 0x42 v).temperature = celsiusOfRaw v
      ∧ (dispatchReading s 0x42 v).co2 = s.co2
      ∧ ∀ c : Nat, c ≠ 0x50 → c ≠ 0x42 → dispatchReading s c v = s := by
  refine ⟨rfl, rfl, rfl, rfl, ?_⟩
  intro c h1 h2
  simp [dispatchReading, h1, h2]

theorem kind_dispatch_witness :
    (dispatchReading initEnvState 0x50 527).co2 = 527
      ∧ dispatchReading initEnvState 0 527 = initEnvState :=
  ⟨(kind_dispatch initEnvState 527).1,
   (kind_dispatch initEnvState 527).2.2.2.2 0 (by decide) (by decide)⟩

/-- C6: temperature conversion; the Celsius value exposed by either
implementation after a raw temperature reading equals the rounded reference
formula, and raw value 4665 yields exactly 18.41. Float64 arithmetic is
modelled as exact rational arithmetic and math.Round as rounding half away
from zero. -/
theorem temperature_conversion :
    (∀ (s : envState) (raw : Int),
        (dispatchReading s 0x42 raw).Temperature
          = (mathRound (((raw : Rat) / 16 - 27315 / 100) * 100) : Rat) / 100)
      ∧ (∀ g : AtomicState,
          g.Temperature
            = (mathRound (((g.raw_temperature : Rat) / 16 - 27315 / 100) * 100) : Rat) / 100)
      ∧ celsiusOfRaw 4665 = 1841 / 100 := by
  refine ⟨fun s raw => rfl, fun g => rfl, ?_⟩
  rw [celsiusOfRaw, mathRound]
  norm_num

/-- C7: with skipDecryption set, the loop takes the kind code from raw byte 0
and the value as the big-endian 16-bit integer of raw bytes 1 and 2, with no
decoding and no validity check; any frame beginning 0x50, 0x02, 0x0F stores
CO2 527 regardless of bytes 3 to 7. -/
theorem skip_decryption_path (key : Frame) (s : envState) (f : Frame)
    (rest : List PollEvent) :
    getReadingsRun key true s (PollEvent.frame f :: rest)
        = getReadingsRun key true
            (dispatchReading s (f 0 % 256) (beUint16 (f 1) (f 2))) rest
      ∧ (f 0 = 0x50 → f 1 = 0x02 → f 2 = 0x0F →
          (getReadingsRun key true s [PollEvent.frame f]).1.co2 = 527) := by
  constructor
  · rfl
  · intro h0 h1 h2
    simp [getReadingsRun, dispatchReading, beUint16, h0, h1, h2, envState.setCo2]

/-- A concrete raw frame for the skip-decryption path, with arbitrary garbage
in bytes 3 to 7. -/
def sampleSkipFrame : Frame := ![0x50, 0x02, 0x0F, 99, 98, 97, 96, 95]

theorem skip_decryption_path_witness :
    (getReadingsRun zeroFrame true initEnvState [PollEvent.frame sampleSkipFrame]).1.co2
      = 527 :=
  (skip_decryption_path zeroFrame initEnvState sampleSkipFrame []).2
    (by decide) (by decide) (by decide)

/-- C9 counterexample: in the atomic-based implementation the initial stored
raw temperature is zero, so the public Temperature getter reports minus 273.15
degrees Celsius before any measurement arrives, not 0. -/
theorem initial_temperature_not_zero_in_atomic_variant :
    AtomicState.Temperature initAtomicState = -27315 / 100
      ∧ AtomicState.Temperature initAtomicState ≠ 0 := by
  constructor
  · rw [AtomicState.Temperature, initAtomicState, mathRound]
    norm_num
  · rw [AtomicState.Temperature, initAtomicState, mathRound]
    norm_num

/-- C9 amended: before any measurement is stored, the mutex-based
implementation reports CO2 0 and temperature 0 through its getters; the
atomic-based implementation reports CO2 0 but temperature minus 273.15,
because its getter converts the zero-initialised raw value on read. -/
theorem initial_state_defaults :
    initEnvState.Co2 = 0 ∧ initEnvState.Temperature = 0
      ∧ AtomicState.Co2 initAtomicState = 0
      ∧ AtomicState.Temperature initAtomicState = -27315 / 100 := by
  refine ⟨rfl, rfl, rfl, ?_⟩
  rw [AtomicState.Temperature, initAtomicState, mathRound]
  norm_num

/-- The decoded forms of the frames a decryption-mode run actually dispatches:
the longest prefix of frame events whose decodes pass validation, cut short by
a read error or an invalid decode. -/
def validDecodedFrames (key : Frame) : List PollEvent → List Frame
  | [] => []
  | PollEvent.readError :: _ => []
  | PollEvent.frame f :: rest =>
    if isValidReading (decryptReading f key) then
      decryptReading f key :: validDecodedFrames key rest
    else []

/-- The CO2 value reached after dispatching a list of decoded frames over a
starting value: the value of the last frame of kind 0x50, if any. -/
def lastCo2 (dflt : Int) (ds : List Frame) : Int :=
  ds.foldl (fun acc d => if d 0 = 0x50 then beUint16 (d 1) (d 2) else acc) dflt

/-- The temperature reached after dispatching a list of decoded frames over a
starting value: the converted value of the last frame of kind 0x42, if any. -/
def lastTemperature (dflt : Rat) (ds : List Frame) : Rat :=
  ds.foldl (fun acc d => if d 0 = 0x42 then celsiusOfRaw (beUint16 (d 1) (d 2)) else acc)
    dflt

theorem dispatch_co2 (s : envState) (c : Nat) (v : Int) :
    (dispatchReading s c v).co2 = if c = 0x50 then v else s.co2 := by
  simp only [dispatchReading]
  split
  · rfl
  · split <;> rfl

theorem dispatch_temperature (s : envState) (c : Nat) (v : Int) :
    (dispatchReading s c v).temperature
      = if c = 0x42 then celsiusOfRaw v else s.temperature := by
  simp only [dispatchReading]
  split
  · rename_i h
    rw [if_neg (by omega)]
    rfl
  · split <;> rfl

/-- C8: after any finite run of the decryption-enabled loop, each state field
equals the value of the most recently dispatched validated reading of its
kind, or the starting value if none arrived, and every dispatched frame passed
validation; a frame failing validation is never reflected. -/
theorem state_reflects_last_validated (key : Frame) (inputs : List PollEvent)
    (s : envState) :
    (getReadingsRun key false s inputs).1.co2
        = lastCo2 s.co2 (validDecodedFrames key inputs)
      ∧ (getReadingsRun key false s inputs).1.temperature
        = lastTemperature s.temperature (validDecodedFrames key inputs)
      ∧ (validDecodedFrames key inputs).all isValidReading = true := by
  induction inputs generalizing s with
  | nil => exact ⟨rfl, rfl, rfl⟩
  | cons e rest ih =>
    cases e with
    | readError => exact ⟨rfl, rfl, rfl⟩
    | frame f =>
      by_cases h : isValidReading (decryptReading f key) = true
      · have hd := ih (dispatchReading s (decryptReading f key 0)
          (beUint16 (decryptReading f key 1) (decryptReading f key 2)))
        refine ⟨?_, ?_, ?_⟩
        · simp only [getReadingsRun, validDecodedFrames, h, if_true, Bool.false_eq_true,
            lastCo2, List.foldl_cons]
          rw [← dispatch_co2 s (decryptReading f key 0)]
          exact hd.1
        · simp only [getReadingsRun, validDecodedFrames, h, if_true, Bool.false_eq_true,
            lastTemperature, List.foldl_cons]
          rw [← dispatch_temperature s (decryptReading f key 0)]
          exact hd.2.1
        · simp only [validDecodedFrames, h, if_true, List.all_cons, Bool.and_eq_true]
          exact ⟨trivial, hd.2.2⟩
      · rw [Bool.not_eq_true] at h
        refine ⟨?_, ?_, ?_⟩ <;>
          simp only [getReadingsRun, validDecodedFrames, h, Bool.false_eq_true, if_false,
            lastCo2, lastTemperature, List.foldl_nil, List.all_nil]

end Co2Meter
